import Mathlib

/-!
# Verification of the trader-backend schema migration subsystem

A shallow embedding of the Go migration manager (`database` package:
`DatabaseManager`, `Connect`, `InitializeDatabase`, `createMigrationsTable`,
`GetMigrations`, `RunMigrations`) and of the startup wiring in
`cmd/t-backend/main.go`, together with theorems settling the specification
claims about it.

The store (a SQLite file) is modelled as an explicit state `DBState`:
the presence of the `migrations` ledger table, the list of ledger rows,
the list of user tables created by migration bodies, and the
auto-increment counter for the ledger's `id` column.  Fallible store
primitives (the `COUNT` query, `Begin`, the body `Exec`, the ledger
`INSERT`, `Commit`) are modelled with an environment `StoreEnv` that
decides, per migration version, whether each primitive fails and with
what message; migration-body SQL execution is modelled by an arbitrary
function on the user-table portion of the state (instantiated for
concrete runs by `execSQL`, a small DDL interpreter that collects
`CREATE TABLE` statements).  Transaction rollback restores the exact
pre-transaction state, matching SQLite semantics of `tx.Rollback()`.
-/

namespace TraderDB

/-- A catalog entry, mirroring Go `type Migration struct
{Version int; Name string; SQL string}`. -/
structure Migration where
  Version : Int
  Name : String
  SQL : String
deriving DecidableEq

/-- One persisted row of the `migrations` ledger table: columns
`id`, `version`, `name`, `executed_at`. -/
structure LedgerRow where
  id : Nat
  version : Int
  name : String
  executed_at : Nat
deriving DecidableEq

/-- The store state: whether the `migrations` table exists, its rows,
the user tables created by migration bodies, and the next
auto-increment `id`. -/
structure DBState where
  hasMigrationsTable : Bool
  ledger : List LedgerRow
  tables : List String
  nextId : Nat
deriving DecidableEq

/-- A store that contains nothing at all (fresh database file). -/
def emptyStore : DBState :=
  { hasMigrationsTable := false, ledger := [], tables := [], nextId := 1 }

/-- `SELECT COUNT(*) FROM migrations WHERE version = ?` over the rows. -/
def countVersion (rows : List LedgerRow) (v : Int) : Nat :=
  (rows.filter (fun r => r.version == v)).length

/-- Table list of the store, as `GetTableInfo` would report it
(membership only; `sqlite_master` ordering is irrelevant here). -/
def tableList (s : DBState) : List String :=
  s.tables ++ (if s.hasMigrationsTable then ["migrations"] else [])

/-- Does a character extend a SQL identifier? -/
def isNameChar (c : Char) : Bool :=
  c.isAlphanum || c == '_'

/-- `startsWithL pat l` : does `l` begin with `pat`? -/
def startsWithL : List Char → List Char → Bool
  | [], _ => true
  | _ :: _, [] => false
  | p :: ps, c :: cs => p == c && startsWithL ps cs

/-- `hasSubL pat l` : does `pat` occur contiguously inside `l`? -/
def hasSubL (pat : List Char) : List Char → Bool
  | [] => startsWithL pat []
  | c :: cs => startsWithL pat (c :: cs) || hasSubL pat cs

/-- String wrapper for `hasSubL`. -/
def strHasSub (pat s : String) : Bool :=
  hasSubL pat.data s.data

/-- The characters introducing a table-creating DDL statement. -/
def createTablePat : List Char := "CREATE TABLE ".data

/-- Scan a character list for `CREATE TABLE <name>` statements and
collect the names. -/
def createdTablesAux : List Char → List (List Char)
  | [] => []
  | c :: rest =>
    if startsWithL createTablePat (c :: rest) then
      ((c :: rest).drop createTablePat.length).takeWhile isNameChar
        :: createdTablesAux rest
    else
      createdTablesAux rest

/-- The table names a SQL script creates (`CREATE TABLE` statements). -/
def createdTables (sql : String) : List String :=
  (createdTablesAux sql.data).map fun cs => String.mk cs

/-- Model of executing a migration body against the user tables: each
`CREATE TABLE` adds a table; creating an existing table is an error
(SQLite: `table ... already exists`). -/
def execSQL (sql : String) (tables : List String) :
    Except String (List String) :=
  let created := createdTables sql
  if created.any (fun t => tables.contains t) then
    Except.error "table already exists"
  else
    Except.ok (tables ++ created)

/-- Fault environment for one run of the migration manager: per
version, whether the ledger `COUNT` query, `Begin`, the ledger
`INSERT`, or `Commit` fails (and the underlying error text), how a
migration body executes against the user tables, and the timestamp the
store assigns to `executed_at`. -/
structure StoreEnv where
  exec : String → List String → Except String (List String)
  queryFail : Int → Option String
  beginFail : Int → Option String
  insertFail : Int → Option String
  commitFail : Int → Option String
  now : Nat

/-- A store with no injected faults, executing bodies with `execSQL`. -/
def honestEnv : StoreEnv :=
  { exec := execSQL
    queryFail := fun _ => none
    beginFail := fun _ => none
    insertFail := fun _ => none
    commitFail := fun _ => none
    now := 0 }

/-- What happened to one catalog entry during a run. -/
inductive MigAction where
  | skipped (v : Int)
  | applied (v : Int)
  | failed (v : Int) (e : String)
deriving DecidableEq

/-- The version an action concerns. -/
def actionVersion : MigAction → Int
  | .skipped v => v
  | .applied v => v
  | .failed v _ => v

/-- The `COUNT` query outcome: fails when the `migrations` table is
absent, or when the environment injects a store-level failure. -/
def queryCount (env : StoreEnv) (s : DBState) (v : Int) :
    Except String Nat :=
  if s.hasMigrationsTable then
    match env.queryFail v with
    | some e => Except.error e
    | none => Except.ok (countVersion s.ledger v)
  else
    Except.error "no such table: migrations"

/-- One iteration of the loop body of Go `RunMigrations` for a single
catalog entry: check the ledger, skip if present, otherwise run
body + ledger insert + commit in one transaction, rolling back (state
unchanged) on any failure.  Returns the new state, the action taken,
and the error returned from the loop (`some` aborts the run). -/
def stepMigration (env : StoreEnv) (s : DBState) (m : Migration) :
    DBState × MigAction × Option String :=
  match queryCount env s m.Version with
  | Except.error e =>
      let msg := "failed to check migration status: " ++ e
      (s, .failed m.Version msg, some msg)
  | Except.ok count =>
    if count > 0 then
      (s, .skipped m.Version, none)
    else
      match env.beginFail m.Version with
      | some e =>
          let msg := "failed to begin transaction: " ++ e
          (s, .failed m.Version msg, some msg)
      | none =>
        match env.exec m.SQL s.tables with
        | Except.error e =>
            let msg := "failed to execute migration " ++ toString m.Version
              ++ ": " ++ e
            (s, .failed m.Version msg, some msg)
        | Except.ok tables' =>
          match env.insertFail m.Version with
          | some e =>
              let msg := "failed to record migration " ++ toString m.Version
                ++ ": " ++ e
              (s, .failed m.Version msg, some msg)
          | none =>
            match env.commitFail m.Version with
            | some e =>
                let msg := "failed to commit migration "
                  ++ toString m.Version ++ ": " ++ e
                (s, .failed m.Version msg, some msg)
            | none =>
                ({ hasMigrationsTable := s.hasMigrationsTable
                   ledger := s.ledger ++
                     [{ id := s.nextId, version := m.Version,
                        name := m.Name, executed_at := env.now }]
                   tables := tables'
                   nextId := s.nextId + 1 },
                 .applied m.Version, none)

/-- Result of a run: final store state, per-entry trace, and the error
value `RunMigrations` returns (`none` = nil). -/
structure RunResult where
  state : DBState
  trace : List MigAction
  error : Option String
deriving DecidableEq

/-- Go `RunMigrations`, parametrised by the catalog it iterates (the
Go code iterates `GetMigrations()` in slice order) and the store
environment.  Aborts on the first entry whose step returns an error. -/
def RunMigrations (env : StoreEnv) (catalog : List Migration)
    (s : DBState) : RunResult :=
  match catalog with
  | [] => { state := s, trace := [], error := none }
  | m :: rest =>
    match stepMigration env s m with
    | (s', a, some e) => { state := s', trace := [a], error := some e }
    | (s', a, none) =>
      let r := RunMigrations env rest s'
      { state := r.state, trace := a :: r.trace, error := r.error }

/-- The literal query of Go `createMigrationsTable`. -/
def createMigrationsTableQuery : String :=
  "\n\tCREATE TABLE IF NOT EXISTS migrations (\n\t\tid INTEGER PRIMARY KEY AUTOINCREMENT,\n\t\tversion INTEGER NOT NULL UNIQUE,\n\t\tname TEXT NOT NULL,\n\t\texecuted_at DATETIME DEFAULT CURRENT_TIMESTAMP\n\t);"

/-- Effect of Go `createMigrationsTable` on the store: `CREATE TABLE
IF NOT EXISTS migrations (...)` — creates the empty ledger table when
absent, leaves the store untouched when present. -/
def createMigrationsTable (s : DBState) : DBState :=
  if s.hasMigrationsTable then s else { s with hasMigrationsTable := true }

/-- The literal SQL body of catalog entry 1 in Go `GetMigrations`. -/
def usersMigrationSQL : String :=
  "\n\t\t\tCREATE TABLE users (\n\t\t\t\tid INTEGER PRIMARY KEY AUTOINCREMENT,\n\t\t\t\tusername TEXT NOT NULL UNIQUE,\n\t\t\t\temail TEXT NOT NULL UNIQUE,\n\t\t\t\tcreated_at DATETIME DEFAULT CURRENT_TIMESTAMP,\n\t\t\t\tupdated_at DATETIME DEFAULT CURRENT_TIMESTAMP\n\t\t\t);\n\t\t\t\n\t\t\tCREATE INDEX idx_users_username ON users(username);\n\t\t\tCREATE INDEX idx_users_email ON users(email);\n\t\t\t"

/-- Go `GetMigrations`: the compiled-in catalog. -/
def GetMigrations : List Migration :=
  [{ Version := 1, Name := "create_users_table", SQL := usersMigrationSQL }]

/-- Go `DatabaseManager`: the `DB` field is the `*sql.DB` handle
(`none` models the nil pointer), `DBPath` the file path. -/
structure DatabaseManager where
  DB : Option Nat
  DBPath : String
deriving DecidableEq

/-- Go `NewDatabaseManager`: only `DBPath` (and the logger) are set;
the `DB` field keeps its zero value nil. -/
def NewDatabaseManager (dbPath : String) : DatabaseManager :=
  { DB := none, DBPath := dbPath }

/-- Environment for `Connect`: whether `sql.Open` fails, whether
`db.Ping` fails, and the handle a successful open yields. -/
structure ConnectEnv where
  openFail : Option String
  pingFail : Option String
  handle : Nat
deriving DecidableEq

/-- Go `Connect`: open, then ping; on either failure return the error
with the manager unchanged; only after a successful ping assign
`dm.DB = db`. -/
def Connect (env : ConnectEnv) (dm : DatabaseManager) :
    DatabaseManager × Option String :=
  match env.openFail with
  | some e => (dm, some e)
  | none =>
    match env.pingFail with
    | some e => (dm, some e)
    | none => ({ dm with DB := some env.handle }, none)

/-- Environment for `InitializeDatabase`: the connection environment,
whether the `CREATE TABLE IF NOT EXISTS migrations` exec fails at the
store level, and the store environment for the migration run. -/
structure InitEnv where
  connect : ConnectEnv
  createFail : Option String
  store : StoreEnv

/-- Result of `InitializeDatabase`: the manager, the store contents,
and the returned error. -/
structure InitResult where
  dm : DatabaseManager
  db : DBState
  error : Option String

/-- Go `InitializeDatabase`: `Connect`, then `createMigrationsTable`,
then `RunMigrations`, aborting on the first error. -/
def InitializeDatabase (env : InitEnv) (dm : DatabaseManager)
    (s : DBState) : InitResult :=
  match Connect env.connect dm with
  | (dm₁, some e) => { dm := dm₁, db := s, error := some e }
  | (dm₁, none) =>
    match env.createFail with
    | some e =>
        { dm := dm₁, db := s,
          error := some ("failed to create migrations table: " ++ e) }
    | none =>
      let r := RunMigrations env.store GetMigrations (createMigrationsTable s)
      { dm := dm₁, db := r.state, error := r.error }

/-- Result of the startup wiring of `cmd/t-backend/main.go`. -/
structure MainResult where
  appUserDB : Option Nat
  dmAfter : DatabaseManager
  storeAfter : DBState
  initError : Option String

/-- The startup wiring of `cmd/t-backend/main.go`: create the manager,
build `application` with `UserModel{DB: dbManager.DB}` (capturing the
current value of the `DB` field), then call `InitializeDatabase`. -/
def tBackendMain (env : InitEnv) (s : DBState) : MainResult :=
  let dbManager := NewDatabaseManager "trader_backend.db"
  let appUserDB := dbManager.DB
  let r := InitializeDatabase env dbManager s
  { appUserDB := appUserDB, dmAfter := r.dm, storeAfter := r.db,
    initError := r.error }

/-- Split a character list at commas. -/
def splitOnComma : List Char → List (List Char)
  | [] => [[]]
  | c :: rest =>
    if c == ',' then [] :: splitOnComma rest
    else
      match splitOnComma rest with
      | [] => [[c]]
      | g :: gs => (c :: g) :: gs

/-- The column names a one-level `CREATE TABLE` DDL declares: the
first identifier of each comma-separated item between the
parentheses. -/
def ddlColumnNames (q : String) : List String :=
  let inner := ((q.data.dropWhile (fun c => c != '(')).drop 1).takeWhile
    (fun c => c != ')')
  (splitOnComma inner).map fun col =>
    String.mk ((col.dropWhile (fun c => !isNameChar c)).takeWhile isNameChar)

/-- Is a list of versions in strictly ascending order? -/
def strictlyAscending : List Int → Bool
  | [] => true
  | [_] => true
  | a :: b :: t => if a < b then strictlyAscending (b :: t) else false

/-- The versions of the migrations a run actually executed (applied),
in execution order. -/
def appliedVersions (tr : List MigAction) : List Int :=
  tr.filterMap fun a =>
    match a with
    | .applied v => some v
    | _ => none

/-- `new` extends `old` by appending fresh rows only: every old row is
still present, in place and unchanged; every appended row's version
had no prior row; no two appended rows share a version. -/
def LedgerExtends (old new : List LedgerRow) : Prop :=
  ∃ rows, new = old ++ rows ∧
    (∀ r ∈ rows, countVersion old r.version = 0) ∧
    (rows.map (fun r => r.version)).Nodup

/-- A store on which the compiled-in catalog has already run: the
ledger table exists and version 1 is recorded. -/
def ledgeredStore : DBState :=
  { hasMigrationsTable := true
    ledger := [{ id := 1, version := 1, name := "create_users_table",
                 executed_at := 0 }]
    tables := ["users"]
    nextId := 2 }

/-- A two-entry catalog supplied in descending version order. -/
def outOfOrderCatalog : List Migration :=
  [{ Version := 2, Name := "second", SQL := "CREATE TABLE t_two (x)" },
   { Version := 1, Name := "first", SQL := "CREATE TABLE t_one (x)" }]

/-- A store whose body executor rejects the script `BROKEN` (a crafted
failing migration body) and otherwise behaves like `honestEnv`. -/
def bodyFailEnv : StoreEnv :=
  { honestEnv with
      exec := fun sql t =>
        if sql == "BROKEN" then Except.error "syntax error"
        else execSQL sql t }

/-- Catalog entry version 1 with a healthy body. -/
def migOne : Migration :=
  { Version := 1, Name := "one", SQL := "CREATE TABLE t_one (x)" }

/-- Catalog entry version 2 whose body fails under `bodyFailEnv`. -/
def migTwo : Migration :=
  { Version := 2, Name := "two", SQL := "BROKEN" }

/-- Catalog entry version 3 with a healthy body. -/
def migThree : Migration :=
  { Version := 3, Name := "three", SQL := "CREATE TABLE t_three (x)" }

/-- Catalog versions [1, 2, 3] where version 2's body fails under
`bodyFailEnv`. -/
def threeCatalog : List Migration := [migOne] ++ migTwo :: [migThree]

/-- A connection environment in which `sql.Open` fails. -/
def connectFailEnv : ConnectEnv :=
  { openFail := some "unable to open database file", pingFail := none,
    handle := 7 }

/-- A fully healthy initialisation environment. -/
def initEnvOk : InitEnv :=
  { connect := { openFail := none, pingFail := none, handle := 7 }
    createFail := none
    store := honestEnv }

end TraderDB

namespace TraderDB

theorem startsWithL_append_self (p r : List Char) :
    startsWithL p (p ++ r) = true := by
  induction p with
  | nil => rfl
  | cons c cs ih => simp [startsWithL, ih]

theorem hasSubL_of_startsWithL (p l : List Char)
    (h : startsWithL p l = true) : hasSubL p l = true := by
  cases l with
  | nil => simpa [hasSubL] using h
  | cons c cs => simp [hasSubL, h]

theorem hasSubL_append (p l r : List Char) :
    hasSubL p (l ++ (p ++ r)) = true := by
  induction l with
  | nil =>
    rw [List.nil_append]
    exact hasSubL_of_startsWithL _ _ (startsWithL_append_self p r)
  | cons c l ih =>
    simp [hasSubL, ih]

theorem strHasSub_append (pre mid post : String) :
    strHasSub mid (pre ++ mid ++ post) = true := by
  unfold strHasSub
  have h : (pre ++ mid ++ post).data = pre.data ++ (mid.data ++ post.data) := by
    simp [String.data_append, List.append_assoc]
  rw [h]
  exact hasSubL_append _ _ _

theorem queryCount_ok (env : StoreEnv) (s : DBState) (v : Int) (c : Nat)
    (h : queryCount env s v = Except.ok c) : c = countVersion s.ledger v := by
  unfold queryCount at h
  split at h
  · split at h
    · exact absurd h (by simp)
    · injection h with h; exact h.symm
  · exact absurd h (by simp)

theorem stepMigration_action_version (env : StoreEnv) (s : DBState)
    (m : Migration) :
    actionVersion (stepMigration env s m).2.1 = m.Version := by
  unfold stepMigration
  split
  · simp [actionVersion]
  · split
    · simp [actionVersion]
    · split
      · simp [actionVersion]
      · split
        · simp [actionVersion]
        · split
          · simp [actionVersion]
          · split
            · simp [actionVersion]
            · simp [actionVersion]

theorem stepMigration_error_shape (env : StoreEnv) (s : DBState)
    (m : Migration) (e : String)
    (h : (stepMigration env s m).2.2 = some e) :
    (stepMigration env s m).2.1 = MigAction.failed m.Version e ∧
    (startsWithL ("failed to check migration status: ".data) e.data = true ∨
     startsWithL ("failed to begin transaction: ".data) e.data = true ∨
     strHasSub (toString m.Version) e = true) := by
  unfold stepMigration at h ⊢
  rcases hq : queryCount env s m.Version with e' | count
  · simp only [hq] at h ⊢
    injection h with h
    subst h
    refine ⟨rfl, Or.inl ?_⟩
    rw [String.data_append]
    exact startsWithL_append_self _ _
  · simp only [hq] at h ⊢
    by_cases hc : count > 0
    · simp [hc] at h
    · simp only [if_neg hc] at h ⊢
      rcases hb : env.beginFail m.Version with _ | e'
      · simp only [hb] at h ⊢
        rcases hx : env.exec m.SQL s.tables with e' | t
        · simp only [hx] at h ⊢
          injection h with h
          subst h
          refine ⟨rfl, Or.inr (Or.inr ?_)⟩
          have harr : "failed to execute migration " ++ toString m.Version
              ++ ": " ++ e' =
              "failed to execute migration " ++ toString m.Version
              ++ (": " ++ e') := by
            simp [String.append_assoc]
          rw [harr]
          exact strHasSub_append _ _ _
        · simp only [hx] at h ⊢
          rcases hi : env.insertFail m.Version with _ | e'
          · simp only [hi] at h ⊢
            rcases hco : env.commitFail m.Version with _ | e'
            · simp [hco] at h
            · simp only [hco] at h ⊢
              injection h with h
              subst h
              refine ⟨rfl, Or.inr (Or.inr ?_)⟩
              have harr : "failed to commit migration " ++ toString m.Version
                  ++ ": " ++ e' =
                  "failed to commit migration " ++ toString m.Version
                  ++ (": " ++ e') := by
                simp [String.append_assoc]
              rw [harr]
              exact strHasSub_append _ _ _
          · simp only [hi] at h ⊢
            injection h with h
            subst h
            refine ⟨rfl, Or.inr (Or.inr ?_)⟩
            have harr : "failed to record migration " ++ toString m.Version
                ++ ": " ++ e' =
                "failed to record migration " ++ toString m.Version
                ++ (": " ++ e') := by
              simp [String.append_assoc]
            rw [harr]
            exact strHasSub_append _ _ _
      · simp only [hb] at h ⊢
        injection h with h
        subst h
        refine ⟨rfl, Or.inr (Or.inl ?_)⟩
        rw [String.data_append]
        exact startsWithL_append_self _ _

theorem runMigrations_nil (env : StoreEnv) (s : DBState) :
    RunMigrations env [] s = { state := s, trace := [], error := none } := rfl

theorem runMigrations_cons_err (env : StoreEnv) (m : Migration)
    (rest : List Migration) (s s' : DBState) (a : MigAction) (e : String)
    (h : stepMigration env s m = (s', a, some e)) :
    RunMigrations env (m :: rest) s =
      { state := s', trace := [a], error := some e } := by
  unfold RunMigrations
  rw [h]

theorem runMigrations_cons_ok (env : StoreEnv) (m : Migration)
    (rest : List Migration) (s s' : DBState) (a : MigAction)
    (h : stepMigration env s m = (s', a, none)) :
    RunMigrations env (m :: rest) s =
      { state := (RunMigrations env rest s').state
        trace := a :: (RunMigrations env rest s').trace
        error := (RunMigrations env rest s').error } := by
  conv_lhs => unfold RunMigrations
  rw [h]

theorem runMigrations_append_ok (env : StoreEnv) (a b : List Migration)
    (s : DBState) (h : (RunMigrations env a s).error = none) :
    RunMigrations env (a ++ b) s =
      { state := (RunMigrations env b (RunMigrations env a s).state).state
        trace := (RunMigrations env a s).trace ++
          (RunMigrations env b (RunMigrations env a s).state).trace
        error := (RunMigrations env b (RunMigrations env a s).state).error } := by
  induction a generalizing s with
  | nil => simp [runMigrations_nil]
  | cons m rest ih =>
    rcases hstep : stepMigration env s m with ⟨s', act, _ | e⟩
    · rw [List.cons_append, runMigrations_cons_ok env m (rest ++ b) s s' act hstep,
        runMigrations_cons_ok env m rest s s' act hstep]
      rw [runMigrations_cons_ok env m rest s s' act hstep] at h
      simp only at h
      rw [ih s' h]
      simp
    · rw [runMigrations_cons_err env m rest s s' act e hstep] at h
      simp at h

theorem runMigrations_append_err (env : StoreEnv) (a b : List Migration)
    (s : DBState) (h : (RunMigrations env a s).error ≠ none) :
    RunMigrations env (a ++ b) s = RunMigrations env a s := by
  induction a generalizing s with
  | nil => simp [runMigrations_nil] at h
  | cons m rest ih =>
    rcases hstep : stepMigration env s m with ⟨s', act, _ | e⟩
    · rw [List.cons_append, runMigrations_cons_ok env m (rest ++ b) s s' act hstep,
        runMigrations_cons_ok env m rest s s' act hstep]
      rw [runMigrations_cons_ok env m rest s s' act hstep] at h
      simp only at h
      rw [ih s' h]
    · rw [List.cons_append, runMigrations_cons_err env m (rest ++ b) s s' act e hstep,
        runMigrations_cons_err env m rest s s' act e hstep]

theorem countVersion_append (a b : List LedgerRow) (v : Int) :
    countVersion (a ++ b) v = countVersion a v + countVersion b v := by
  unfold countVersion
  rw [List.filter_append, List.length_append]

theorem stepMigration_skip (env : StoreEnv) (s : DBState) (m : Migration)
    (htab : s.hasMigrationsTable = true)
    (hq : env.queryFail m.Version = none)
    (hc : 0 < countVersion s.ledger m.Version) :
    stepMigration env s m = (s, MigAction.skipped m.Version, none) := by
  unfold stepMigration queryCount
  simp [htab, hq, hc]

theorem stepMigration_state_cases (env : StoreEnv) (s : DBState)
    (m : Migration) :
    (stepMigration env s m).1 = s ∨
    (countVersion s.ledger m.Version = 0 ∧
     ∃ t, (stepMigration env s m).1 =
       { hasMigrationsTable := s.hasMigrationsTable
         ledger := s.ledger ++
           [{ id := s.nextId, version := m.Version, name := m.Name,
              executed_at := env.now }]
         tables := t
         nextId := s.nextId + 1 }) := by
  unfold stepMigration
  rcases hq : queryCount env s m.Version with e' | count
  · exact Or.inl rfl
  · simp only []
    by_cases hc : count > 0
    · rw [if_pos hc]
      exact Or.inl rfl
    · rw [if_neg hc]
      rcases hb : env.beginFail m.Version with _ | e'
      · simp only []
        rcases hx : env.exec m.SQL s.tables with e' | t
        · exact Or.inl rfl
        · simp only []
          rcases hi : env.insertFail m.Version with _ | e'
          · simp only []
            rcases hco : env.commitFail m.Version with _ | e'
            · simp only []
              refine Or.inr ⟨?_, t, rfl⟩
              have hcv := queryCount_ok env s m.Version count hq
              omega
            · exact Or.inl rfl
          · exact Or.inl rfl
      · exact Or.inl rfl

theorem runMigrations_trace_versions (env : StoreEnv)
    (cat : List Migration) (s : DBState) :
    (RunMigrations env cat s).trace.map actionVersion =
      ((cat.take (RunMigrations env cat s).trace.length).map
        Migration.Version) := by
  induction cat generalizing s with
  | nil => rfl
  | cons m rest ih =>
    rcases hstep : stepMigration env s m with ⟨s', act, _ | e⟩
    · rw [runMigrations_cons_ok env m rest s s' act hstep]
      have hv : actionVersion act = m.Version := by
        have h := stepMigration_action_version env s m
        rw [hstep] at h
        exact h
      simp [hv, ih s']
    · rw [runMigrations_cons_err env m rest s s' act e hstep]
      have hv : actionVersion act = m.Version := by
        have h := stepMigration_action_version env s m
        rw [hstep] at h
        exact h
      simp [hv]

theorem stepMigration_ok_action (env : StoreEnv) (s : DBState)
    (m : Migration) (h : (stepMigration env s m).2.2 = none) :
    (stepMigration env s m).2.1 = MigAction.skipped m.Version ∨
    (stepMigration env s m).2.1 = MigAction.applied m.Version := by
  unfold stepMigration at h ⊢
  rcases hq : queryCount env s m.Version with e' | count
  · simp [hq] at h
  · simp only [hq] at h ⊢
    by_cases hc : count > 0
    · rw [if_pos hc]
      exact Or.inl rfl
    · rw [if_neg hc] at h ⊢
      rcases hb : env.beginFail m.Version with _ | e'
      · simp only [hb] at h ⊢
        rcases hx : env.exec m.SQL s.tables with e' | t
        · simp [hx] at h
        · simp only [hx] at h ⊢
          rcases hi : env.insertFail m.Version with _ | e'
          · simp only [hi] at h ⊢
            rcases hco : env.commitFail m.Version with _ | e'
            · simp [hco]
            · simp [hco] at h
          · simp [hi] at h
      · simp [hb] at h

theorem countVersion_pos_iff (rows : List LedgerRow) (v : Int) :
    0 < countVersion rows v ↔ v ∈ rows.map (fun r => r.version) := by
  unfold countVersion
  rw [List.length_pos]
  constructor
  · intro h
    rcases List.exists_mem_of_ne_nil _ h with ⟨r, hr⟩
    have hmem := List.mem_filter.mp hr
    rcases hmem with ⟨hrm, hrv⟩
    exact List.mem_map.mpr ⟨r, hrm, by simpa using hrv⟩
  · intro h
    rcases List.mem_map.mp h with ⟨r, hrm, hrv⟩
    intro hnil
    have := List.filter_eq_nil_iff.mp hnil r hrm
    simp [hrv] at this

theorem ledgerExtends_refl (l : List LedgerRow) : LedgerExtends l l :=
  ⟨[], by simp, by simp, List.nodup_nil⟩

theorem ledgerExtends_trans (a b c : List LedgerRow)
    (h₁ : LedgerExtends a b) (h₂ : LedgerExtends b c) : LedgerExtends a c := by
  rcases h₁ with ⟨r₁, rfl, hn₁, nd₁⟩
  rcases h₂ with ⟨r₂, rfl, hn₂, nd₂⟩
  refine ⟨r₁ ++ r₂, by rw [List.append_assoc], ?_, ?_⟩
  · intro r hr
    rcases List.mem_append.mp hr with hr | hr
    · exact hn₁ r hr
    · have h := hn₂ r hr
      rw [countVersion_append] at h
      omega
  · rw [List.map_append]
    rw [List.nodup_append]
    refine ⟨nd₁, nd₂, ?_⟩
    intro v hv₁ hv₂
    rcases List.mem_map.mp hv₂ with ⟨r, hrm, hrv⟩
    have h := hn₂ r hrm
    rw [countVersion_append] at h
    have hpos : 0 < countVersion r₁ r.version :=
      (countVersion_pos_iff r₁ r.version).mpr (by rw [hrv]; exact hv₁)
    omega

theorem stepMigration_ledgerExtends (env : StoreEnv) (s : DBState)
    (m : Migration) :
    LedgerExtends s.ledger (stepMigration env s m).1.ledger := by
  rcases stepMigration_state_cases env s m with h | ⟨hc, t, h⟩
  · rw [h]
    exact ledgerExtends_refl _
  · rw [h]
    refine ⟨[⟨s.nextId, m.Version, m.Name, env.now⟩], rfl, ?_, by simp⟩
    intro r hr
    rcases List.mem_singleton.mp hr with rfl
    simpa using hc

theorem runMigrations_ledgerExtends (env : StoreEnv)
    (cat : List Migration) (s : DBState) :
    LedgerExtends s.ledger (RunMigrations env cat s).state.ledger := by
  induction cat generalizing s with
  | nil => exact ledgerExtends_refl _
  | cons m rest ih =>
    rcases hstep : stepMigration env s m with ⟨s', act, eo⟩
    have hext : LedgerExtends s.ledger s'.ledger := by
      have h := stepMigration_ledgerExtends env s m
      rw [hstep] at h
      exact h
    cases eo with
    | some e =>
      rw [runMigrations_cons_err env m rest s s' act e hstep]
      exact hext
    | none =>
      rw [runMigrations_cons_ok env m rest s s' act hstep]
      exact ledgerExtends_trans _ _ _ hext (ih s')

set_option maxRecDepth 8000

/-- C8: starting from an empty store (after the ledger table is
ensured), running the compiled-in catalog succeeds, the ledger holds
exactly one row with version 1, and the table list includes both
`users` and `migrations`. -/
theorem bootstrap_scenario :
    (RunMigrations honestEnv GetMigrations
      (createMigrationsTable emptyStore)).error = none ∧
    (RunMigrations honestEnv GetMigrations
      (createMigrationsTable emptyStore)).state.ledger =
      [{ id := 1, version := 1, name := "create_users_table",
         executed_at := 0 }] ∧
    "users" ∈ tableList (RunMigrations honestEnv GetMigrations
      (createMigrationsTable emptyStore)).state ∧
    "migrations" ∈ tableList (RunMigrations honestEnv GetMigrations
      (createMigrationsTable emptyStore)).state := by
  decide

/-- C4 counterexample: for a catalog supplied in descending version
order, `RunMigrations` executes the migrations in catalog order
[2, 1], which is not strictly ascending — the code never sorts the
catalog. -/
theorem runMigrations_order_counterexample :
    appliedVersions (RunMigrations honestEnv outOfOrderCatalog
      (createMigrationsTable emptyStore)).trace = [2, 1] ∧
    strictlyAscending (appliedVersions (RunMigrations honestEnv
      outOfOrderCatalog (createMigrationsTable emptyStore)).trace) = false ∧
    (RunMigrations honestEnv outOfOrderCatalog
      (createMigrationsTable emptyStore)).error = none := by
  decide

/-- C4 (amended): `RunMigrations` executes migrations in catalog
order — the trace covers exactly an initial segment of the catalog, in
order; the compiled-in catalog's versions are strictly ascending, so
for the catalog actually shipped the executed order is ascending. -/
theorem runMigrations_catalog_order (env : StoreEnv)
    (cat : List Migration) (s : DBState) :
    (RunMigrations env cat s).trace.map actionVersion =
      ((cat.take (RunMigrations env cat s).trace.length).map
        Migration.Version) ∧
    strictlyAscending (GetMigrations.map Migration.Version) = true :=
  ⟨runMigrations_trace_versions env cat s, by decide⟩

/-- C6 counterexample: running against a store without the ledger
table aborts with the error `failed to check migration status: no
such table: migrations`, whose message does not contain the failing
version 1 — not every error identifies the failing version. -/
theorem runMigrations_error_without_version :
    (RunMigrations honestEnv GetMigrations emptyStore).error =
      some "failed to check migration status: no such table: migrations" ∧
    (RunMigrations honestEnv GetMigrations emptyStore).trace =
      [MigAction.failed 1
        "failed to check migration status: no such table: migrations"] ∧
    strHasSub (toString (1 : Int))
      "failed to check migration status: no such table: migrations" =
      false := by
  decide

/-- C1: on a store whose ledger already records every catalog version
(and with no store-level query fault), `RunMigrations` skips every
entry: no schema mutation, no ledger insert, the state is returned
unchanged, so a second consecutive run reproduces the first run's
state exactly and a version present in the ledger is never
re-applied. -/
theorem runMigrations_idempotent_skip (env : StoreEnv)
    (cat : List Migration) (s : DBState)
    (htab : s.hasMigrationsTable = true)
    (hq : ∀ m ∈ cat, env.queryFail m.Version = none)
    (hc : ∀ m ∈ cat, 0 < countVersion s.ledger m.Version) :
    RunMigrations env cat s =
      { state := s
        trace := cat.map (fun m => MigAction.skipped m.Version)
        error := none } := by
  induction cat with
  | nil => rfl
  | cons m rest ih =>
    have hstep := stepMigration_skip env s m htab (hq m (by simp))
      (hc m (by simp))
    rw [runMigrations_cons_ok env m rest s s (MigAction.skipped m.Version)
      hstep]
    rw [ih (fun m' hm => hq m' (by simp [hm]))
      (fun m' hm => hc m' (by simp [hm]))]
    simp

/-- C1 witness: a store already carrying the ledger row for version 1
is returned unchanged, with the single catalog entry skipped. -/
theorem runMigrations_idempotent_skip_witness :
    RunMigrations honestEnv GetMigrations ledgeredStore =
      { state := ledgeredStore
        trace := [MigAction.skipped 1]
        error := none } := by
  have h := runMigrations_idempotent_skip honestEnv GetMigrations
    ledgeredStore rfl (by decide) (by decide)
  simpa using h

/-- C2: when a migration that has reached execution (ledger check
succeeded with no prior row, transaction began) fails in its body
execution or in its ledger insert, the transaction is rolled back in
full: the run aborts, the store is left exactly as it was before that
migration started, and no ledger row for that version exists
afterwards. -/
theorem migration_rollback_on_failure (env : StoreEnv)
    (cat₁ cat₂ : List Migration) (m : Migration) (s : DBState)
    (h₁ : (RunMigrations env cat₁ s).error = none)
    (htab : (RunMigrations env cat₁ s).state.hasMigrationsTable = true)
    (hq : env.queryFail m.Version = none)
    (hcount : countVersion (RunMigrations env cat₁ s).state.ledger
      m.Version = 0)
    (hb : env.beginFail m.Version = none)
    (hfail : (∃ e, env.exec m.SQL (RunMigrations env cat₁ s).state.tables =
        Except.error e) ∨
      env.insertFail m.Version ≠ none) :
    (RunMigrations env (cat₁ ++ m :: cat₂) s).state =
      (RunMigrations env cat₁ s).state ∧
    (RunMigrations env (cat₁ ++ m :: cat₂) s).error ≠ none ∧
    countVersion (RunMigrations env (cat₁ ++ m :: cat₂) s).state.ledger
      m.Version = 0 := by
  have hstep : ∃ msg, stepMigration env (RunMigrations env cat₁ s).state m =
      ((RunMigrations env cat₁ s).state, MigAction.failed m.Version msg,
       some msg) := by
    unfold stepMigration queryCount
    rw [htab]
    simp only [if_true, hq, hcount, hb]
    rcases hx : env.exec m.SQL (RunMigrations env cat₁ s).state.tables
      with e | t
    · exact ⟨_, rfl⟩
    · rcases hi : env.insertFail m.Version with _ | e
      · exfalso
        rcases hfail with ⟨e, hfe⟩ | hif
        · rw [hfe] at hx
          exact Except.noConfusion hx
        · exact hif hi
      · exact ⟨_, rfl⟩
  rcases hstep with ⟨msg, hstep⟩
  rw [runMigrations_append_ok env cat₁ (m :: cat₂) s h₁]
  rw [runMigrations_cons_err env m cat₂ (RunMigrations env cat₁ s).state
    (RunMigrations env cat₁ s).state (MigAction.failed m.Version msg) msg
    hstep]
  exact ⟨rfl, by simp, hcount⟩

/-- C2 witness: a single-entry catalog whose body fails leaves the
empty (table-ensured) store unchanged, aborts, and records no ledger
row for version 2. -/
theorem migration_rollback_on_failure_witness :
    (RunMigrations bodyFailEnv ([] ++ migTwo :: [])
      (createMigrationsTable emptyStore)).state =
      (RunMigrations bodyFailEnv [] (createMigrationsTable emptyStore)).state ∧
    (RunMigrations bodyFailEnv ([] ++ migTwo :: [])
      (createMigrationsTable emptyStore)).error ≠ none ∧
    countVersion (RunMigrations bodyFailEnv ([] ++ migTwo :: [])
      (createMigrationsTable emptyStore)).state.ledger migTwo.Version = 0 :=
  migration_rollback_on_failure bodyFailEnv [] [] migTwo
    (createMigrationsTable emptyStore) rfl rfl rfl rfl rfl
    (Or.inl ⟨"syntax error", rfl⟩)

/-- C3: if the run of a catalog prefix succeeds and the next entry's
step fails (for any reason: ledger query, begin, body, insert, or
commit), the whole run returns that error and the trace ends right
there — no later catalog entry is ever attempted. -/
theorem runMigrations_fail_fast (env : StoreEnv)
    (cat₁ cat₂ : List Migration) (m : Migration) (s : DBState) (e : String)
    (h₁ : (RunMigrations env cat₁ s).error = none)
    (hstep : (stepMigration env (RunMigrations env cat₁ s).state m).2.2 =
      some e) :
    (RunMigrations env (cat₁ ++ m :: cat₂) s).error = some e ∧
    (RunMigrations env (cat₁ ++ m :: cat₂) s).trace =
      (RunMigrations env cat₁ s).trace ++ [MigAction.failed m.Version e] := by
  have hact := (stepMigration_error_shape env
    (RunMigrations env cat₁ s).state m e hstep).1
  rcases h2 : stepMigration env (RunMigrations env cat₁ s).state m
    with ⟨s', act, eo⟩
  rw [h2] at hstep hact
  simp only at hstep hact
  subst hstep
  subst hact
  rw [runMigrations_append_ok env cat₁ (m :: cat₂) s h₁]
  rw [runMigrations_cons_err env m cat₂ (RunMigrations env cat₁ s).state s'
    (MigAction.failed m.Version e) e h2]
  exact ⟨rfl, rfl⟩

/-- C3 witness: catalog versions [1, 2, 3] where version 2's body
fails — the run aborts with version 2's error, the trace is
[applied 1, failed 2], version 3 is never attempted, and the ledger
contains the row for version 1 only. -/
theorem runMigrations_fail_fast_witness :
    (RunMigrations bodyFailEnv threeCatalog
      (createMigrationsTable emptyStore)).error =
      some "failed to execute migration 2: syntax error" ∧
    (RunMigrations bodyFailEnv threeCatalog
      (createMigrationsTable emptyStore)).trace =
      [MigAction.applied 1,
       MigAction.failed 2 "failed to execute migration 2: syntax error"] ∧
    (RunMigrations bodyFailEnv threeCatalog
      (createMigrationsTable emptyStore)).state.ledger.map
      (fun r => r.version) = [1] := by
  have h := runMigrations_fail_fast bodyFailEnv [migOne] [migThree] migTwo
    (createMigrationsTable emptyStore)
    "failed to execute migration 2: syntax error" (by decide) (by decide)
  refine ⟨h.1, ?_, by decide⟩
  rw [show threeCatalog = [migOne] ++ migTwo :: [migThree] from rfl, h.2]
  decide

/-- C5: `createMigrationsTable` issues `CREATE TABLE IF NOT EXISTS
migrations` with exactly the columns id (auto-incrementing key),
version (unique integer), name (text) and executed_at (timestamp
defaulting to insert time); it is idempotent and touches nothing but
the table's existence; and `InitializeDatabase` runs it after
`Connect` and before `RunMigrations` considers any catalog entry. -/
theorem createMigrationsTable_spec :
    (∀ env dm s, (Connect env.connect dm).2 = none →
      env.createFail = none →
      InitializeDatabase env dm s =
        { dm := (Connect env.connect dm).1
          db := (RunMigrations env.store GetMigrations
            (createMigrationsTable s)).state
          error := (RunMigrations env.store GetMigrations
            (createMigrationsTable s)).error }) ∧
    (∀ s, createMigrationsTable (createMigrationsTable s) =
      createMigrationsTable s) ∧
    (∀ s, (createMigrationsTable s).hasMigrationsTable = true) ∧
    (∀ s, (createMigrationsTable s).ledger = s.ledger ∧
      (createMigrationsTable s).tables = s.tables) ∧
    ddlColumnNames createMigrationsTableQuery =
      ["id", "version", "name", "executed_at"] ∧
    strHasSub "CREATE TABLE IF NOT EXISTS migrations"
      createMigrationsTableQuery = true ∧
    strHasSub "id INTEGER PRIMARY KEY AUTOINCREMENT"
      createMigrationsTableQuery = true ∧
    strHasSub "version INTEGER NOT NULL UNIQUE"
      createMigrationsTableQuery = true ∧
    strHasSub "name TEXT NOT NULL" createMigrationsTableQuery = true ∧
    strHasSub "executed_at DATETIME DEFAULT CURRENT_TIMESTAMP"
      createMigrationsTableQuery = true := by
  refine ⟨?_, ?_, ?_, ?_, by decide, by decide, by decide, by decide,
    by decide, by decide⟩
  · intro env dm s hcon hcr
    unfold InitializeDatabase
    rcases hC : Connect env.connect dm with ⟨dm₁, co⟩
    rw [hC] at hcon
    simp only at hcon
    subst hcon
    rw [hcr]
  · intro s
    unfold createMigrationsTable
    by_cases h : s.hasMigrationsTable <;> simp [h]
  · intro s
    unfold createMigrationsTable
    by_cases h : s.hasMigrationsTable <;> simp [h]
  · intro s
    unfold createMigrationsTable
    by_cases h : s.hasMigrationsTable <;> simp [h]

/-- C5 witness: a healthy initialisation on an empty store reduces to
running the catalog on the store with the ledger table ensured. -/
theorem createMigrationsTable_spec_witness :
    InitializeDatabase initEnvOk (NewDatabaseManager "trader_backend.db")
      emptyStore =
      { dm := (Connect initEnvOk.connect
          (NewDatabaseManager "trader_backend.db")).1
        db := (RunMigrations honestEnv GetMigrations
          (createMigrationsTable emptyStore)).state
        error := (RunMigrations honestEnv GetMigrations
          (createMigrationsTable emptyStore)).error } :=
  createMigrationsTable_spec.1 initEnvOk
    (NewDatabaseManager "trader_backend.db") emptyStore rfl rfl

/-- C7: the migration subsystem is append-only on the ledger: every
run of `RunMigrations` keeps every pre-existing ledger row in place
and unchanged and only appends rows, each appended row's version had
no prior row and no two appended rows share a version;
`createMigrationsTable` and `InitializeDatabase` preserve the ledger
the same way. -/
theorem ledger_append_only (env : StoreEnv) (cat : List Migration)
    (s : DBState) :
    LedgerExtends s.ledger (RunMigrations env cat s).state.ledger ∧
    (createMigrationsTable s).ledger = s.ledger ∧
    (∀ ienv dm, LedgerExtends s.ledger
      (InitializeDatabase ienv dm s).db.ledger) := by
  have hcre : (createMigrationsTable s).ledger = s.ledger := by
    unfold createMigrationsTable
    by_cases h : s.hasMigrationsTable <;> simp [h]
  refine ⟨runMigrations_ledgerExtends env cat s, hcre, ?_⟩
  intro ienv dm
  unfold InitializeDatabase
  rcases Connect ienv.connect dm with ⟨dm₁, _ | ce⟩
  · rcases ienv.createFail with _ | ce
    · simp only
      have h := runMigrations_ledgerExtends ienv.store GetMigrations
        (createMigrationsTable s)
      rw [hcre] at h
      exact h
    · exact ledgerExtends_refl _
  · exact ledgerExtends_refl _

/-- C9: `Connect` on failure (open or ping) returns the error and
leaves the manager unchanged; the `DB` field is assigned only after a
successful ping; a freshly constructed manager has a nil `DB`
handle. -/
theorem connect_preserves_manager (env : ConnectEnv)
    (dm : DatabaseManager) :
    ((Connect env dm).2 ≠ none → (Connect env dm).1 = dm) ∧
    ((Connect env dm).2 = none →
      (Connect env dm).1 = { dm with DB := some env.handle }) ∧
    (∀ p : String, (NewDatabaseManager p).DB = none) := by
  cases ho : env.openFail <;> cases hp : env.pingFail <;>
    simp [Connect, ho, hp, NewDatabaseManager]

/-- C9 witness: a failed open leaves the fresh manager (and so its nil
`DB` field) unchanged. -/
theorem connect_preserves_manager_witness :
    (Connect connectFailEnv (NewDatabaseManager "trader_backend.db")).1 =
      NewDatabaseManager "trader_backend.db" :=
  (connect_preserves_manager connectFailEnv
    (NewDatabaseManager "trader_backend.db")).1 (by decide)

/-- C10: the startup wiring of `cmd/t-backend/main.go` captures
`dbManager.DB` into the user model before `InitializeDatabase` opens
the connection, so the user model's handle is nil on every run — even
when initialisation succeeds and the manager's own `DB` field ends up
holding the opened handle. -/
theorem stale_user_model_handle (env : InitEnv) (s : DBState) :
    (tBackendMain env s).appUserDB = none ∧
    ((tBackendMain env s).initError = none →
      (tBackendMain env s).dmAfter.DB = some env.connect.handle) := by
  constructor
  · rfl
  · intro h
    cases ho : env.connect.openFail <;> cases hp : env.connect.pingFail <;>
      cases hc : env.createFail <;>
      simp [tBackendMain, InitializeDatabase, Connect, NewDatabaseManager,
        ho, hp, hc] at h ⊢

/-- C10 witness: with a healthy environment the run succeeds, the
manager's handle is open, yet the user model's captured handle is
nil. -/
theorem stale_user_model_handle_witness :
    (tBackendMain initEnvOk emptyStore).appUserDB = none ∧
    (tBackendMain initEnvOk emptyStore).dmAfter.DB = some 7 :=
  ⟨(stale_user_model_handle initEnvOk emptyStore).1,
   (stale_user_model_handle initEnvOk emptyStore).2 (by decide)⟩

/-- C6 (amended): every run either ends with an action (skip or
apply) for every catalog entry and returns nil, or returns the single
error of the entry it stopped at, which is the last trace action;
errors from the migration body, the ledger insert, and the commit
embed the failing version in their message, while the ledger status
query and transaction begin errors do not carry the version. -/
theorem runMigrations_outcome (env : StoreEnv) (cat : List Migration)
    (s : DBState) :
    ((RunMigrations env cat s).error = none →
      (RunMigrations env cat s).trace.length = cat.length ∧
      ∀ a ∈ (RunMigrations env cat s).trace,
        (∃ v, a = MigAction.skipped v) ∨ (∃ v, a = MigAction.applied v)) ∧
    (∀ e, (RunMigrations env cat s).error = some e →
      ∃ v, (RunMigrations env cat s).trace.getLast? =
        some (MigAction.failed v e) ∧
        (startsWithL ("failed to check migration status: ".data) e.data =
          true ∨
         startsWithL ("failed to begin transaction: ".data) e.data = true ∨
         strHasSub (toString v) e = true)) := by
  induction cat generalizing s with
  | nil =>
    exact ⟨fun _ => ⟨rfl, by simp [runMigrations_nil]⟩,
      fun e he => by simp [runMigrations_nil] at he⟩
  | cons m rest ih =>
    rcases hstep : stepMigration env s m with ⟨s', act, eo⟩
    cases eo with
    | some e₀ =>
      rw [runMigrations_cons_err env m rest s s' act e₀ hstep]
      constructor
      · intro h
        simp at h
      · intro e he
        simp only at he
        injection he with he
        have hshape := stepMigration_error_shape env s m e₀ (by rw [hstep])
        rw [hstep] at hshape
        simp only at hshape
        subst he
        refine ⟨m.Version, ?_, hshape.2⟩
        rw [hshape.1]
        rfl
    | none =>
      rw [runMigrations_cons_ok env m rest s s' act hstep]
      have hact := stepMigration_ok_action env s m (by rw [hstep])
      rw [hstep] at hact
      simp only at hact
      constructor
      · intro h
        simp only at h
        rcases (ih s').1 h with ⟨hlen, hall⟩
        refine ⟨by simp [hlen], ?_⟩
        intro a ha
        rcases List.mem_cons.mp ha with rfl | ha
        · rcases hact with h | h
          · exact Or.inl ⟨m.Version, h⟩
          · exact Or.inr ⟨m.Version, h⟩
        · exact hall a ha
      · intro e he
        simp only at he
        rcases (ih s').2 e he with ⟨v, hlast, hkinds⟩
        refine ⟨v, ?_, hkinds⟩
        rcases htr : (RunMigrations env rest s').trace with _ | ⟨x, xs⟩
        · rw [htr] at hlast
          simp at hlast
        · rw [htr] at hlast
          rw [List.getLast?_cons_cons]
          exact hlast

/-- C6 witness: a healthy run over the compiled-in catalog returns
nil with one action per catalog entry, none of them a failure. -/
theorem runMigrations_outcome_witness :
    (RunMigrations honestEnv GetMigrations
      (createMigrationsTable emptyStore)).trace.length =
      GetMigrations.length ∧
    ∀ a ∈ (RunMigrations honestEnv GetMigrations
      (createMigrationsTable emptyStore)).trace,
      (∃ v, a = MigAction.skipped v) ∨ (∃ v, a = MigAction.applied v) :=
  (runMigrations_outcome honestEnv GetMigrations
    (createMigrationsTable emptyStore)).1 (by decide)

end TraderDB
